import Mathlib

/-!
# Formal model of the deterministic extraction core of PDF-reader

A shallow embedding, in Lean 4, of the deterministic extraction engine of
the PDF-reader repository (`app/extractors/deterministic.py`), together with
the money normalizer (`app/validators/normalizers.py`) that the scoring layer
consumes, and theorems settling the specification claims about them.

Modelling conventions:
* Python `float` is modelled by `ℚ` (`Rat`): every constant in the scoring
  code is a short decimal literal, so exact rational arithmetic is the
  faithful idealisation of the comparisons the code performs.
* Python `int` is modelled by `Int`.
* Python exceptions are modelled by `Except PyErr`; a `try/except` block
  becomes a `match` on the `Except` value.
* Python strings are Lean `String`s; the repository's data is ASCII, and the
  case-mapping / whitespace helpers below are the ASCII restriction of the
  Python ones.
* Fields of the source records that no claim mentions (bounding-box based
  `SourceLocation`, the `Evidence` snippet, OCR confidence plumbing) are
  carried or omitted as noted next to each structure.
-/

/-! ## Python string primitives -/

/-- Model of Python's `str.lower()` (ASCII restriction). -/
def pyLower (s : String) : String := String.mk (s.toList.map Char.toLower)

/-- Characters treated as whitespace by Python's `str.strip()` / `\s`
(ASCII restriction). -/
def pyIsSpace (c : Char) : Bool :=
  c = ' ' ∨ c = '\t' ∨ c = '\n' ∨ c = '\x0d' ∨ c = '\x0c' ∨ c = '\x0b'

/-- Model of Python's `str.strip(chars)`: remove the listed characters from
both ends. -/
def pyStripChars (chars : List Char) (s : String) : String :=
  let l := s.toList.dropWhile (fun c => c ∈ chars)
  String.mk ((l.reverse.dropWhile (fun c => c ∈ chars)).reverse)

/-- Model of Python's `str.strip()` (strip whitespace from both ends). -/
def pyStripWs (s : String) : String :=
  let l := s.toList.dropWhile pyIsSpace
  String.mk ((l.reverse.dropWhile pyIsSpace).reverse)

/-- Model of Python's `str.lstrip(":")`. -/
def pyLstripColon (s : String) : String :=
  String.mk (s.toList.dropWhile (fun c => c = ':'))

/-- Split a character list at every character satisfying `p` (segments may be
empty, as with Python's `str.split(sep)`). -/
def splitChars (p : Char → Bool) : List Char → List (List Char)
  | [] => [[]]
  | c :: cs =>
    let rest := splitChars p cs
    if p c then [] :: rest
    else
      match rest with
      | [] => [[c]]
      | w :: ws => (c :: w) :: ws

/-- Model of Python's `str.split()` — split on whitespace runs, dropping
empty pieces. -/
def pySplit (s : String) : List String :=
  ((splitChars pyIsSpace s.toList).map String.mk).filter (fun w => w ≠ "")

/-! ## `difflib.SequenceMatcher.ratio`

The anchor matcher's `_fuzzy_score` is
`SequenceMatcher(None, a.lower(), b.lower()).ratio()`.  The model below
implements CPython's `find_longest_match` / `get_matching_blocks` / `ratio`
for inputs without junk: the autojunk heuristic only activates on second
sequences of length ≥ 200, and every string the repository compares is far
shorter, so the junk-extension loops of CPython are no-ops and are omitted.
-/

/-- One row of the `find_longest_match` dynamic program: scan `j` over
`[blo, bhi)`, extending runs that end at `(i, j)`.  `j2len` maps a position
in `b` to the length of the longest run ending there in the *previous* row
(reads `j2len (j-1)` mirror CPython's `j2len.get(j-1, 0)`), while the row's
own map `newj2len` starts from the empty (all-zero) map, exactly as
CPython's `newj2len = {}` at the top of each row — positions that do not
match in this row keep no stale lengths.  Returns the new row map together
with the best `(i', j', size)` found so far (`best` is updated only on
strictly greater size, which reproduces CPython's first-longest
tie-breaking). -/
def flmRow (a b : List Char) (i blo bhi : Nat)
    (j2len : Nat → Nat) (best : Nat × Nat × Nat) : (Nat → Nat) × (Nat × Nat × Nat) :=
  (List.range (bhi - blo)).foldl
    (fun (acc : (Nat → Nat) × (Nat × Nat × Nat)) (off : Nat) =>
      let j := blo + off
      let (newj2len, b') := acc
      let same : Bool :=
        match a.get? i, b.get? j with
        | some x, some y => x = y
        | _, _ => false
      if same then
        let k := if j = 0 then 1 else j2len (j - 1) + 1
        let newj2len' := fun x => if x = j then k else newj2len x
        let b'' := if k > b'.2.2 then (i + 1 - k, j + 1 - k, k) else b'
        (newj2len', b'')
      else acc)
    (fun _ => 0, best)

/-- CPython `SequenceMatcher.find_longest_match` on `a[alo:ahi]` /
`b[blo:bhi]`, for junk-free inputs: returns `(besti, bestj, bestsize)`. -/
def findLongestMatch (a b : List Char) (alo ahi blo bhi : Nat) : Nat × Nat × Nat :=
  ((List.range (ahi - alo)).foldl
    (fun (acc : (Nat → Nat) × (Nat × Nat × Nat)) (off : Nat) =>
      let i := alo + off
      flmRow a b i blo bhi acc.1 acc.2)
    (fun _ => 0, (alo, blo, 0))).2

/-- CPython `SequenceMatcher.get_matching_blocks` (without the final
zero-length sentinel, which `ratio` ignores).  The recursion is driven by a
fuel argument; `a.length + b.length + 1` fuel always suffices because each
recursive call covers a strictly smaller span. -/
def matchingBlocks (a b : List Char) : Nat → Nat → Nat → Nat → Nat → List (Nat × Nat × Nat)
  | 0, _, _, _, _ => []
  | fuel + 1, alo, ahi, blo, bhi =>
    let (i, j, k) := findLongestMatch a b alo ahi blo bhi
    if k = 0 then []
    else
      matchingBlocks a b fuel alo i blo j ++ (i, j, k) ::
        matchingBlocks a b fuel (i + k) ahi (j + k) bhi

/-- CPython `SequenceMatcher.ratio()`: `2*M / (len(a)+len(b))`, where `M` is
the total size of the matching blocks; two empty sequences have ratio 1. -/
def seqRatio (a b : List Char) : ℚ :=
  let m : Nat :=
    ((matchingBlocks a b (a.length + b.length + 1) 0 a.length 0 b.length).map
      (fun t => t.2.2)).sum
  if a.length + b.length = 0 then 1
  else (2 * m : ℚ) / ((a.length + b.length : Nat) : ℚ)

/-- Model of `_fuzzy_score(a, b)` — `SequenceMatcher(None, a.lower(), b.lower()).ratio()`
(deterministic.py line 32). -/
def fuzzy_score (a b : String) : ℚ :=
  seqRatio (pyLower a).toList (pyLower b).toList

/-! ## Data model (`app/models.py`, `app/config/loader.py`)

`BBox` keeps all coordinates (they feed `_best_bbox`); `Token` drops the OCR
confidence field `conf`, which the extraction core never reads.  Candidate /
result records drop `source` and `evidence` (bounding-box provenance and
text snippets), which no claim mentions; everything else is carried. -/

inductive ExtractionStatus | verified | needs_review | missing
deriving DecidableEq, Repr

inductive ExtractionMethod | anchor | regex | layout | llm
deriving DecidableEq, Repr

structure BBox where
  x0 : ℚ
  y0 : ℚ
  x1 : ℚ
  y1 : ℚ
  page : Int
deriving DecidableEq, Repr

structure Token where
  text : String
  bbox : BBox
  line_id : Int
deriving DecidableEq, Repr

structure NormalizedPage where
  page_no : Int
  tokens : List Token
  full_text : String
  ocr_used : Bool
deriving DecidableEq, Repr

structure NormalizedDocument where
  document_id : String
  pages : List NormalizedPage
deriving DecidableEq, Repr

/-- Model of `NormalizedDocument.full_text`: pages' texts joined by blank lines. -/
def NormalizedDocument.full_text (d : NormalizedDocument) : String :=
  String.intercalate "\n\n" (d.pages.map (fun p => p.full_text))

/-- Python values flowing through normalization: the extraction core only
ever produces strings (raw token text) and numbers / ISO-date strings
(normalizer outputs). -/
inductive Val
  | str (s : String)
  | num (q : ℚ)
deriving DecidableEq, Repr

/-- Python exceptions the modelled code can raise or swallow. -/
inductive PyErr
  | normalizationError (msg : String)
  | indexError
  | attributeError
  | valueError
deriving DecidableEq, Repr

/-- A compiled regex applied with `finditer`: for each match we record the
full matched text (`group(0)`) and the capture groups — `none` marks a group
that is defined by the pattern but did not participate in the match (Python
returns `None` for it).  The regex engine itself (`re.compile`/`finditer`)
is external to the core and is modelled as the function producing the match
list for a given input text. -/
structure PyMatch where
  group0 : String
  groups : List (Option String)
deriving DecidableEq, Repr

/-- Model of `FieldConfig` (config/loader.py).  `compiled_patterns` holds the
already-compiled matchers, see `PyMatch`.  `normalizers`/`validators` are
carried opaquely: the scorer receives the normalize/validate capabilities as
separate function arguments, exactly as in the source. -/
structure FieldConfig where
  name : String
  type_ : String := ""
  required : Bool := false
  anchors : List String := []
  compiled_patterns : List (String → List PyMatch) := []
  search_window : String := "same_line_or_next"
  normalizers : List String := []
  validators : List String := []
  fallback_allowed : Bool := true

/-- Model of `FieldCandidate` (models.py), minus `source`/`evidence`. -/
structure FieldCandidate where
  value : Val
  raw_value : String
  confidence : ℚ
  method : ExtractionMethod
deriving DecidableEq, Repr

/-- Model of `FieldResult` (models.py), minus `source`/`evidence`; unset optional
fields are `none`, and the pydantic defaults (`confidence = 0.0`,
`status = missing`, empty lists) are the Lean defaults. -/
structure FieldResult where
  field_name : String
  value : Option Val := none
  raw_value : Option String := none
  confidence : ℚ := 0
  status : ExtractionStatus := .missing
  method : Option ExtractionMethod := none
  alternatives : List FieldCandidate := []
  validation_errors : List String := []
deriving DecidableEq, Repr

/-! ## Deterministic extractor (`app/extractors/deterministic.py`) -/

/-- Method base weights for scoring (deterministic.py lines 22-26). -/
def METHOD_WEIGHTS : ExtractionMethod → ℚ
  | .anchor => 0.75
  | .regex => 0.55
  | .layout => 0.50
  | .llm => 0

/-- Fuzzy match threshold for anchor detection (line 29). -/
def ANCHOR_FUZZY_THRESHOLD : ℚ := 0.80

/-- The `same_line_right` / first phase of `same_line_or_next` scan
(lines 52-56): walk the tokens after the anchor, keeping those on the
anchor's line and page; stop at the first token whose line id is greater
than the anchor's. -/
def sameLineScan (anchorLine : Int) (pageNo : Int) : List Token → List (String × BBox)
  | [] => []
  | t :: ts =>
    if t.line_id = anchorLine ∧ t.bbox.page = pageNo then
      (t.text, t.bbox) :: sameLineScan anchorLine pageNo ts
    else if anchorLine < t.line_id then []
    else sameLineScan anchorLine pageNo ts

/-- The `next_3_lines` scan (lines 70-77): walk the tokens after the anchor;
a token on the right page and on a line after the anchor's is collected and
its line recorded; once 3 distinct lines have been recorded the scan stops
(after collecting the token that completed the third line).  `seen` models
the Python `lines_found` set. -/
def next3Scan (anchorLine : Int) (pageNo : Int) : List Token → List Int → List (String × BBox)
  | [], _ => []
  | t :: ts, seen =>
    if t.bbox.page = pageNo ∧ anchorLine < t.line_id then
      let seen' := if t.line_id ∈ seen then seen else seen ++ [t.line_id]
      (t.text, t.bbox) ::
        (if 3 ≤ seen'.length then [] else next3Scan anchorLine pageNo ts seen')
    else next3Scan anchorLine pageNo ts seen

/-- Model of `_token_text_near(tokens, anchor_idx, search_window, page_no)`
(lines 36-79).  `anchor_idx` is in range at every call site (see
`anchor_extract`), so the out-of-range default token is never consulted. -/
def token_text_near (tokens : List Token) (anchorIdx : Nat) (searchWindow : String)
    (pageNo : Int) : List (String × BBox) :=
  let anchorTok := tokens.getD anchorIdx ⟨"", ⟨0, 0, 0, 0, 0⟩, 0⟩
  let anchorLine := anchorTok.line_id
  let suffix := tokens.drop (anchorIdx + 1)
  if searchWindow = "same_line_or_next" ∨ searchWindow = "same_line_right" then
    let results := sameLineScan anchorLine pageNo suffix
    if results = [] ∧ searchWindow = "same_line_or_next" then
      -- fall through to the next encountered line id (lines 59-68);
      -- note the fall-through collects over the whole token list.
      match suffix.find? (fun t => t.line_id ≠ anchorLine) with
      | none => []
      | some t0 =>
        (tokens.filter (fun t => t.line_id = t0.line_id ∧ t.bbox.page = pageNo)).map
          (fun t => (t.text, t.bbox))
    else results
  else if searchWindow = "next_3_lines" then
    next3Scan anchorLine pageNo suffix []
  else []

/-- The anchor-match score of anchor phrase `anchor` at token position `i`
(deterministic.py lines 109-128): single-word anchors are fuzzy-compared
with the `:`/`#`-stripped lower-cased token; multi-word anchors compare the
space-joined stripped span of the next `N` tokens, provided it fits on the
page.  Returns `(match_score, matched_span)`. -/
def anchor_match_score (tokens : List Token) (i : Nat) (tok : Token) (anchor : String) :
    ℚ × Nat :=
  let tokLower := pyStripChars [':', '#'] (pyLower tok.text)
  let anchorWords := pySplit (pyLower anchor)
  if anchorWords.length = 1 then
    (fuzzy_score tokLower (anchorWords.headD ""), 1)
  else if i + anchorWords.length ≤ tokens.length then
    let spanText := String.intercalate " "
      (((tokens.drop i).take anchorWords.length).map
        (fun t => pyStripChars [':', '#'] (pyLower t.text)))
    (fuzzy_score spanText anchor, anchorWords.length)
  else (0, 1)

/-- The value-token cleaning loop (deterministic.py lines 143-147): each
token text is whitespace-stripped, loses a leading run of `:`, is stripped
again, and is dropped if empty. -/
def cleanValueTokens : List (String × BBox) → List (String × BBox)
  | [] => []
  | (t, b) :: rest =>
    let t' := pyStripWs (pyLstripColon (pyStripWs t))
    if t' = "" then cleanValueTokens rest else (t', b) :: cleanValueTokens rest

/-- The body of the anchor-extraction loops for one `(token position,
anchor phrase)` pair (deterministic.py lines 109-171): zero or one candidate.
The anchor index passed to `_token_text_near` is `i + matched_span - 1`;
Python's `-1` (possible only for an anchor phrase with no words) denotes the
last token. -/
def anchorStep (tokens : List Token) (pageNo : Int) (cfg : FieldConfig) (i : Nat)
    (tok : Token) (anchor : String) : List FieldCandidate :=
  let ms := anchor_match_score tokens i tok anchor
  if ANCHOR_FUZZY_THRESHOLD ≤ ms.1 then
    let anchorIdx := if i + ms.2 = 0 then tokens.length - 1 else i + ms.2 - 1
    let valueTokens := token_text_near tokens anchorIdx cfg.search_window pageNo
    if valueTokens = [] then []
    else
      let cleaned := cleanValueTokens valueTokens
      if cleaned = [] then []
      else
        let rawValue := String.intercalate " " (cleaned.map Prod.fst)
        [{ value := .str rawValue, raw_value := rawValue,
           confidence := METHOD_WEIGHTS .anchor * ms.1, method := .anchor }]
  else []

/-- Model of `anchor_extract(doc, field_config)` (deterministic.py lines 94-174):
for every page, token position and configured anchor, run `anchorStep` and
concatenate the emitted candidates in loop order. -/
def anchor_extract (doc : NormalizedDocument) (cfg : FieldConfig) : List FieldCandidate :=
  doc.pages.flatMap (fun page =>
    page.tokens.enum.flatMap (fun it =>
      cfg.anchors.flatMap (fun anchor =>
        anchorStep page.tokens page.page_no cfg it.1 it.2 anchor)))

/-- Model of `match.group(1)` (re module semantics): `IndexError` when the pattern
defines no group 1; `None` when group 1 exists but did not participate in
the match. -/
def pyGroup1 (m : PyMatch) : Except PyErr (Option String) :=
  if 1 ≤ m.groups.length then .ok (m.groups.getD 0 none) else .error .indexError

/-- The `raw_value` computation of `regex_extract` (deterministic.py lines
189-193): `try: match.group(1).strip() except IndexError: match.group(0).strip()`.
A participating group yields its stripped text; a missing group 1 falls back
to the stripped full match; a non-participating group 1 makes Python call
`None.strip()`, raising an `AttributeError` that the `except IndexError`
clause does not catch. -/
def regexMatchValue (m : PyMatch) : Except PyErr String :=
  match pyGroup1 m with
  | .error .indexError => .ok (pyStripWs m.group0)
  | .error e => .error e
  | .ok (some s) => .ok (pyStripWs s)
  | .ok none => .error .attributeError

/-- Model of `regex_extract(doc, field_config)` (deterministic.py lines 177-216):
apply every compiled pattern to the document's full text, emit one
candidate per match (skipping matches whose extracted value is empty) with
the fixed regex base weight.  An exception from the `raw_value` step aborts
the whole call.  The `_find_token_bbox` lookup only feeds the omitted
`source` field and is not modelled. -/
def regex_extract (doc : NormalizedDocument) (cfg : FieldConfig) :
    Except PyErr (List FieldCandidate) :=
  cfg.compiled_patterns.foldlM (fun acc pat =>
    (pat doc.full_text).foldlM (fun acc2 m => do
      let rawValue ← regexMatchValue m
      if rawValue = "" then pure acc2
      else pure (acc2 ++ [{ value := .str rawValue, raw_value := rawValue,
                            confidence := METHOD_WEIGHTS .regex, method := .regex }])) acc) []

/-- The per-candidate scoring step of `score_candidates` (deterministic.py
lines 259-279): start from the candidate's confidence; a successful
normalization adds 0.10 and replaces the value; a failed one keeps the raw
value with no bonus; validation of the (possibly normalized) value adds
0.15 when it returns no errors, subtracts 0.05 per error otherwise, and a
validator crash has no effect; the score is finally clamped to at most 1. -/
def scoreOne (cfg : FieldConfig) (nf : String → FieldConfig → Except PyErr Val)
    (vf : Val → FieldConfig → Except PyErr (List String)) (c : FieldCandidate) :
    FieldCandidate :=
  let score := c.confidence
  let step :=
    match nf c.raw_value cfg with
    | .ok v => (score + 0.10, { c with value := v }, v)
    | .error _ => (score, c, Val.str c.raw_value)
  let score :=
    match vf step.2.2 cfg with
    | .ok [] => step.1 + 0.15
    | .ok errs => step.1 - 0.05 * (errs.length : ℚ)
    | .error _ => step.1
  { step.2.1 with confidence := min score 1 }

/-- Model of `scored.sort(key=lambda x: x.confidence, reverse=True)`: a stable sort by
descending confidence (Python's sort is stable; so is `List.mergeSort`). -/
def sortByConfidenceDesc (l : List FieldCandidate) : List FieldCandidate :=
  l.mergeSort (fun a b => decide (b.confidence ≤ a.confidence))

/-- Model of `score_candidates(candidates, field_config, normalizer_fn, validator_fn)`
(deterministic.py lines 245-294): score each candidate independently; then,
if there is more than one scored candidate and some later candidate's value
differs from the first's while its confidence exceeds 0.4, subtract a flat
0.05 from every candidate (once — the Python loop breaks at the first such
candidate); finally sort by descending confidence. -/
def score_candidates (cands : List FieldCandidate) (cfg : FieldConfig)
    (nf : String → FieldConfig → Except PyErr Val)
    (vf : Val → FieldConfig → Except PyErr (List String)) : List FieldCandidate :=
  let scored := cands.map (scoreOne cfg nf vf)
  let scored :=
    if 1 < scored.length then
      match scored with
      | [] => scored
      | top :: rest =>
        if rest.any (fun c => decide (c.value ≠ top.value) && decide ((0.4 : ℚ) < c.confidence))
        then (top :: rest).map (fun x => { x with confidence := x.confidence - 0.05 })
        else top :: rest
    else scored
  sortByConfidenceDesc scored

/-- Model of `extract_field(doc, field_config, normalizer_fn, validator_fn)`
(deterministic.py lines 297-343): run anchor then regex extraction; with no
candidates return a missing `FieldResult` immediately; otherwise score, take
the ranked head as winner, decide the status by the fixed 0.85/0.50
thresholds, and populate the result from the winner with the next four
candidates as alternatives.  The `[]` case after scoring is unreachable
(scoring preserves the number of candidates) and mirrors the missing
result. -/
def extract_field (doc : NormalizedDocument) (cfg : FieldConfig)
    (nf : String → FieldConfig → Except PyErr Val)
    (vf : Val → FieldConfig → Except PyErr (List String)) : Except PyErr FieldResult :=
  match regex_extract doc cfg with
  | .error e => .error e
  | .ok regexCands =>
    let all_candidates := anchor_extract doc cfg ++ regexCands
    if all_candidates = [] then
      .ok { field_name := cfg.name, status := .missing }
    else
      match score_candidates all_candidates cfg nf vf with
      | [] => .ok { field_name := cfg.name, status := .missing }
      | best :: rest =>
        let status :=
          if 0.85 ≤ best.confidence then ExtractionStatus.verified
          else if 0.50 ≤ best.confidence then ExtractionStatus.needs_review
          else ExtractionStatus.missing
        .ok { field_name := cfg.name, value := some best.value,
              raw_value := some best.raw_value, confidence := best.confidence,
              status := status, method := some best.method,
              alternatives := rest.take 4, validation_errors := [] }

/-! ## Concrete fixtures used by the theorems -/

/-- A token with the given text and line id, at a degenerate position on
page 0 (coordinates are irrelevant to every claim). -/
def tok0 (t : String) (l : Int) : Token := ⟨t, ⟨0, 0, 0, 0, 0⟩, l⟩

/-- A single page-0 document with the given tokens. -/
def docOf (ts : List Token) : NormalizedDocument := ⟨"doc", [⟨0, ts, "", false⟩]⟩

/-- A normalizer stub that always fails with `NormalizationError` (the
behaviour of `normalize_value` on unparseable input). -/
def nfFail : String → FieldConfig → Except PyErr Val :=
  fun _ _ => .error (.normalizationError "cannot parse")

/-- A normalizer stub that succeeds, returning the raw string. -/
def nfId : String → FieldConfig → Except PyErr Val := fun s _ => .ok (.str s)

/-- A validator stub that reports no errors. -/
def vfEmpty : Val → FieldConfig → Except PyErr (List String) := fun _ _ => .ok []

/-- A validator stub that reports six errors (enough to drag an anchor
candidate's confidence below 0.50). -/
def vfSix : Val → FieldConfig → Except PyErr (List String) :=
  fun _ _ => .ok ["e1", "e2", "e3", "e4", "e5", "e6"]

/-- Document for C1's counterexample: one line `Total: x`. -/
def c1Doc : NormalizedDocument := docOf [tok0 "Total:" 0, tok0 "x" 0]

/-- Field config for C1's counterexample: anchor `total`, no patterns. -/
def c1Cfg : FieldConfig :=
  { name := "t", anchors := ["total"], search_window := "same_line_right" }

/-! ## C1 -/

/-- C1, counterexample.  The claim states that a `FieldResult` with
`status = missing` has a null `value` and an unset `method`, *including* on
the path where a candidate exists but the winner's final confidence is
below 0.50.  On the document `Total: x` with anchor `total`, a failing
normalizer and a six-error validator, the winner scores
`0.75 - 0.05*6 = 0.45 < 0.50`, and `extract_field` returns
`status = missing` with `value = some "x"` and `method = some anchor` —
refuting the claimed invariant on exactly that path. -/
theorem C1_counterexample :
    extract_field c1Doc c1Cfg nfFail vfSix =
      .ok { field_name := "t", value := some (.str "x"), raw_value := some "x",
            confidence := 0.45, status := .missing, method := some .anchor,
            alternatives := [], validation_errors := [] } ∧
    ¬((ExtractionStatus.missing = .missing → (some (Val.str "x") = (none : Option Val)))) := by
  constructor
  · with_unfolding_all rfl
  · intro h
    cases h rfl

/-- C1 (amended).  What does hold: when the combined candidate list is
empty the result has `value = none`, `method = none` and `status = missing`;
and a non-null `value` always comes with a set `method`.  On the
low-confidence path (`status = missing` despite candidates) the result keeps
the winner's non-null value and method. -/
theorem C1_amended (doc : NormalizedDocument) (cfg : FieldConfig)
    (nf : String → FieldConfig → Except PyErr Val)
    (vf : Val → FieldConfig → Except PyErr (List String))
    (rc : List FieldCandidate) (hrc : regex_extract doc cfg = .ok rc) :
    ∃ r, extract_field doc cfg nf vf = .ok r ∧
      ((anchor_extract doc cfg ++ rc = []) →
        r.value = none ∧ r.method = none ∧ r.status = .missing) ∧
      (r.value ≠ none → r.method ≠ none) := by
  unfold extract_field
  rw [hrc]
  by_cases hemp : anchor_extract doc cfg ++ rc = []
  · simp only [if_pos hemp]
    exact ⟨_, rfl, fun _ => ⟨rfl, rfl, rfl⟩, fun h => absurd rfl h⟩
  · simp only [if_neg hemp]
    cases hsc : score_candidates (anchor_extract doc cfg ++ rc) cfg nf vf with
    | nil => exact ⟨_, rfl, fun h => absurd h hemp, fun h => absurd rfl h⟩
    | cons best rest =>
      exact ⟨_, rfl, fun h => absurd h hemp, fun _ => by simp⟩

/-- Witness for `C1_amended` at a concrete input: the empty document with a
pattern-free config yields no candidates, and the amended invariant holds. -/
theorem C1_amended_witness :
    ∃ r, extract_field (docOf []) { name := "f" } nfId vfEmpty = .ok r ∧
      ((anchor_extract (docOf []) { name := "f" } ++ [] = []) →
        r.value = none ∧ r.method = none ∧ r.status = .missing) ∧
      (r.value ≠ none → r.method ≠ none) :=
  C1_amended (docOf []) { name := "f" } nfId vfEmpty [] (by with_unfolding_all rfl)

/-! ## C10 -/

/-- Document for C10: full text `TOTAL due`, no tokens needed. -/
def c10Doc : NormalizedDocument := ⟨"doc-c10", [⟨0, [], "TOTAL due", false⟩]⟩

/-- Models the compiled pattern `(?:(INV-\d+)|TOTAL)` applied with
`finditer` to this document's full text `"TOTAL due"`: one match, matching
`TOTAL` through the second alternation branch, so capture group 1 is defined
by the pattern but does not participate in the match (`match.group(1)` is
`None`). -/
def c10Pattern : String → List PyMatch := fun text =>
  if text = "TOTAL due" then [{ group0 := "TOTAL", groups := [none] }] else []

/-- Field config for C10: the single pattern above. -/
def c10Cfg : FieldConfig := { name := "total", compiled_patterns := [c10Pattern] }

/-- C10.  On a pattern that defines capture group 1 on one alternation
branch and matches through the other, `regex_extract` raises
(`None.strip()` → `AttributeError`, uncaught) instead of skipping the match
or returning a candidate list, and `extract_field` propagates the
exception: the function is not total over syntactically valid pattern
configurations. -/
theorem C10_regex_extract_raises :
    regex_extract c10Doc c10Cfg = .error .attributeError ∧
    extract_field c10Doc c10Cfg nfId vfEmpty = .error .attributeError := by
  constructor
  · with_unfolding_all rfl
  · with_unfolding_all rfl

/-! ## C2 -/

/-- C2.  With at least one candidate, `extract_field` assigns the status
from the winner's final confidence `c` by the fixed thresholds
(`0.85 ≤ c → verified`, `0.50 ≤ c < 0.85 → needs_review`,
`c < 0.50 → missing`); with an empty combined candidate list it returns the
missing `FieldResult` immediately — in particular the result does not depend
on the scoring capabilities (no scoring step runs). -/
theorem C2_status_thresholds (doc : NormalizedDocument) (cfg : FieldConfig)
    (nf : String → FieldConfig → Except PyErr Val)
    (vf : Val → FieldConfig → Except PyErr (List String))
    (rc : List FieldCandidate) (hrc : regex_extract doc cfg = .ok rc) :
    ((anchor_extract doc cfg ++ rc = []) →
      (extract_field doc cfg nf vf = .ok { field_name := cfg.name, status := .missing }) ∧
      ∀ nf' vf', extract_field doc cfg nf vf = extract_field doc cfg nf' vf') ∧
    (∀ best rest,
      score_candidates (anchor_extract doc cfg ++ rc) cfg nf vf = best :: rest →
      ∃ r, extract_field doc cfg nf vf = .ok r ∧ r.confidence = best.confidence ∧
        (0.85 ≤ best.confidence → r.status = .verified) ∧
        (0.50 ≤ best.confidence ∧ best.confidence < 0.85 → r.status = .needs_review) ∧
        (best.confidence < 0.50 → r.status = .missing)) := by
  constructor
  · intro hemp
    constructor
    · unfold extract_field
      rw [hrc]
      simp only [if_pos hemp]
    · intro nf' vf'
      unfold extract_field
      rw [hrc]
      simp only [if_pos hemp]
  · intro best rest hsc
    have hne : anchor_extract doc cfg ++ rc ≠ [] := by
      intro h
      rw [h] at hsc
      have hnil : score_candidates [] cfg nf vf = [] := by
        simp [score_candidates, sortByConfidenceDesc]
      rw [hnil] at hsc
      exact List.noConfusion hsc
    unfold extract_field
    rw [hrc]
    simp only [if_neg hne]
    rw [hsc]
    refine ⟨_, rfl, rfl, ?_, ?_, ?_⟩
    · intro h1
      simp only [if_pos h1]
    · intro h2
      simp only [if_neg (not_le.mpr h2.2), if_pos h2.1]
    · intro h3
      have : ¬(0.85 : ℚ) ≤ best.confidence := by
        refine not_le.mpr (lt_of_lt_of_le h3 (by norm_num))
      simp only [if_neg this, if_neg (not_le.mpr h3)]

/-- Witness for `C2_status_thresholds`: the empty document yields the missing
result immediately, and on `Total: x` with an identity normalizer and an
error-free validator the winner scores `0.75 + 0.10 + 0.15 = 1.0 ≥ 0.85`,
so the status is `verified`. -/
theorem C2_witness :
    (extract_field (docOf []) { name := "f" } nfId vfEmpty =
      .ok { field_name := "f", status := .missing }) ∧
    ∃ r, extract_field c1Doc c1Cfg nfId vfEmpty = .ok r ∧ r.status = .verified := by
  constructor
  · exact ((C2_status_thresholds (docOf []) { name := "f" } nfId vfEmpty []
      (by with_unfolding_all rfl)).1 (by with_unfolding_all rfl)).1
  · obtain ⟨r, hr, hconf, hv, _, _⟩ :=
      (C2_status_thresholds c1Doc c1Cfg nfId vfEmpty []
        (by with_unfolding_all rfl)).2 ⟨.str "x", "x", 1, .anchor⟩ []
        (by with_unfolding_all rfl)
    exact ⟨r, hr, hv (by norm_num)⟩

/-! ## C4 -/

/-- A validator stub reporting twenty errors (drives a score negative). -/
def vfTwenty : Val → FieldConfig → Except PyErr (List String) :=
  fun _ _ => .ok ((List.range 20).map (fun i => toString i))

/-- C4.  Per-candidate scoring: starting from the method base confidence,
a successful normalization adds 0.10 and replaces the value (failure gives
no bonus, no penalty, and keeps the candidate's value); validation with zero
errors adds 0.15, with `k > 0` errors subtracts `0.05 * k`, and a validator
crash has no effect; the final score is clamped to at most 1.0 (and to
nothing from below). -/
theorem C4_scoring_components (cfg : FieldConfig)
    (nf : String → FieldConfig → Except PyErr Val)
    (vf : Val → FieldConfig → Except PyErr (List String)) (c : FieldCandidate) :
    (∀ v, nf c.raw_value cfg = .ok v →
      (vf v cfg = .ok [] →
        scoreOne cfg nf vf c =
          { c with value := v, confidence := min (c.confidence + 0.10 + 0.15) 1 }) ∧
      (∀ errs, errs ≠ [] → vf v cfg = .ok errs →
        scoreOne cfg nf vf c =
          { c with value := v, confidence := min (c.confidence + 0.10 - 0.05 * (errs.length : ℚ)) 1 }) ∧
      (∀ e, vf v cfg = .error e →
        scoreOne cfg nf vf c =
          { c with value := v, confidence := min (c.confidence + 0.10) 1 })) ∧
    (∀ e, nf c.raw_value cfg = .error e →
      (vf (.str c.raw_value) cfg = .ok [] →
        scoreOne cfg nf vf c = { c with confidence := min (c.confidence + 0.15) 1 }) ∧
      (∀ errs, errs ≠ [] → vf (.str c.raw_value) cfg = .ok errs →
        scoreOne cfg nf vf c =
          { c with confidence := min (c.confidence - 0.05 * (errs.length : ℚ)) 1 }) ∧
      (∀ e', vf (.str c.raw_value) cfg = .error e' →
        scoreOne cfg nf vf c = { c with confidence := min c.confidence 1 })) ∧
    (scoreOne cfg nf vf c).confidence ≤ 1 := by
  refine ⟨?_, ?_, ?_⟩
  · intro v hv
    refine ⟨?_, ?_, ?_⟩
    · intro hok
      unfold scoreOne
      rw [hv]
      simp only
      rw [hok]
    · intro errs hne herrs
      unfold scoreOne
      rw [hv]
      simp only
      rw [herrs]
      cases errs with
      | nil => exact absurd rfl hne
      | cons e es => rfl
    · intro e he
      unfold scoreOne
      rw [hv]
      simp only
      rw [he]
  · intro e he
    refine ⟨?_, ?_, ?_⟩
    · intro hok
      unfold scoreOne
      rw [he]
      simp only
      rw [hok]
    · intro errs hne herrs
      unfold scoreOne
      rw [he]
      simp only
      rw [herrs]
      cases errs with
      | nil => exact absurd rfl hne
      | cons e' es => rfl
    · intro e' he'
      unfold scoreOne
      rw [he]
      simp only
      rw [he']
  · unfold scoreOne
    cases nf c.raw_value cfg with
    | ok v =>
      simp only
      cases vf v cfg with
      | ok errs => cases errs <;> exact min_le_right _ _
      | error e => exact min_le_right _ _
    | error e =>
      simp only
      cases vf (.str c.raw_value) cfg with
      | ok errs => cases errs <;> exact min_le_right _ _
      | error e => exact min_le_right _ _

/-- Witness for `C4_scoring_components`: the anchor candidate `x` with base
0.75 reaches the 1.0 clamp under successful normalization and error-free
validation, and a regex candidate with base 0.55, failed normalization and
twenty validation errors ends at `0.55 - 1.00 = -0.45` — below zero, showing
the absence of a floor clamp. -/
theorem C4_witness :
    scoreOne { name := "f" } nfId vfEmpty ⟨.str "x", "x", 0.75, .anchor⟩ =
      { value := .str "x", raw_value := "x", confidence := 1, method := .anchor } ∧
    scoreOne { name := "f" } nfFail vfTwenty ⟨.str "x", "x", 0.55, .regex⟩ =
      { value := .str "x", raw_value := "x", confidence := -0.45, method := .regex } := by
  constructor
  · exact (((C4_scoring_components { name := "f" } nfId vfEmpty
      ⟨.str "x", "x", 0.75, .anchor⟩).1 (.str "x") rfl).1 rfl).trans
      (by with_unfolding_all decide)
  · exact (((C4_scoring_components { name := "f" } nfFail vfTwenty
      ⟨.str "x", "x", 0.55, .regex⟩).2.1 (.normalizationError "cannot parse") rfl).2.1
      _ (by with_unfolding_all decide) rfl).trans (by with_unfolding_all decide)

/-! ## C3 -/

/-- C3.  Conflict penalty: with two or more scored candidates, if the
first-encountered candidate's value differs from some later candidate's
value whose adjusted confidence exceeds 0.4, every candidate's confidence is
lowered by a flat 0.05 exactly once (the result is the sorted image of a
single `-0.05` map, however many later candidates disagree); when no such
later candidate exists, no penalty is applied. -/
theorem C3_conflict_penalty (cands : List FieldCandidate) (cfg : FieldConfig)
    (nf : String → FieldConfig → Except PyErr Val)
    (vf : Val → FieldConfig → Except PyErr (List String))
    (top : FieldCandidate) (rest : List FieldCandidate)
    (h : cands.map (scoreOne cfg nf vf) = top :: rest) (hne : rest ≠ []) :
    ((∃ c ∈ rest, c.value ≠ top.value ∧ 0.4 < c.confidence) →
      score_candidates cands cfg nf vf =
        sortByConfidenceDesc
          ((top :: rest).map (fun x => { x with confidence := x.confidence - 0.05 }))) ∧
    ((∀ c ∈ rest, c.value = top.value ∨ c.confidence ≤ 0.4) →
      score_candidates cands cfg nf vf = sortByConfidenceDesc (top :: rest)) := by
  have hlen : 1 < (top :: rest).length := by
    cases rest with
    | nil => exact absurd rfl hne
    | cons a l => simp
  constructor
  · intro hex
    have hany :
        (rest.any fun c =>
          decide (c.value ≠ top.value) && decide ((0.4 : ℚ) < c.confidence)) = true := by
      obtain ⟨c, hc, hv, hconf⟩ := hex
      exact List.any_eq_true.mpr ⟨c, hc, by simp [hv, hconf]⟩
    unfold score_candidates
    rw [h]
    simp only [if_pos hlen, hany, if_true]
  · intro hall
    have hany :
        (rest.any fun c =>
          decide (c.value ≠ top.value) && decide ((0.4 : ℚ) < c.confidence)) = false := by
      rw [List.any_eq_false]
      intro c hc
      rcases hall c hc with hv | hconf
      · simp [hv]
      · simp [not_lt.mpr hconf]
    unfold score_candidates
    rw [h]
    simp only [if_pos hlen, hany, Bool.false_eq_true, if_false]

/-- Witness for `C3_conflict_penalty`, mirroring the spec's example: three
candidates where the second disagrees with the first at confidence
`0.6 > 0.4` all end exactly 0.05 lower; adding a fourth disagreeing
candidate does not double the penalty; and a disagreeing candidate at
confidence `0.4` (not exceeding the threshold) triggers no penalty. -/
theorem C3_witness :
    (score_candidates
        [⟨.str "A", "A", 0.7, .anchor⟩, ⟨.str "B", "B", 0.6, .anchor⟩,
         ⟨.str "A", "A", 0.5, .regex⟩] { name := "f" } nfFail
        (fun _ _ => .error .valueError) =
      [⟨.str "A", "A", 0.65, .anchor⟩, ⟨.str "B", "B", 0.55, .anchor⟩,
       ⟨.str "A", "A", 0.45, .regex⟩]) ∧
    (score_candidates
        [⟨.str "A", "A", 0.7, .anchor⟩, ⟨.str "B", "B", 0.6, .anchor⟩,
         ⟨.str "A", "A", 0.5, .regex⟩, ⟨.str "C", "C", 0.6, .regex⟩] { name := "f" } nfFail
        (fun _ _ => .error .valueError) =
      [⟨.str "A", "A", 0.65, .anchor⟩, ⟨.str "B", "B", 0.55, .anchor⟩,
       ⟨.str "C", "C", 0.55, .regex⟩, ⟨.str "A", "A", 0.45, .regex⟩]) ∧
    (score_candidates
        [⟨.str "A", "A", 0.7, .anchor⟩, ⟨.str "B", "B", 0.4, .anchor⟩] { name := "f" } nfFail
        (fun _ _ => .error .valueError) =
      [⟨.str "A", "A", 0.7, .anchor⟩, ⟨.str "B", "B", 0.4, .anchor⟩]) := by
  refine ⟨?_, ?_, ?_⟩
  · exact ((C3_conflict_penalty _ { name := "f" } nfFail (fun _ _ => .error .valueError)
      ⟨.str "A", "A", 0.7, .anchor⟩ [⟨.str "B", "B", 0.6, .anchor⟩, ⟨.str "A", "A", 0.5, .regex⟩]
      (by with_unfolding_all decide) (by decide)).1
      ⟨⟨.str "B", "B", 0.6, .anchor⟩, by simp, by decide, by with_unfolding_all decide⟩).trans
      (by with_unfolding_all decide)
  · exact ((C3_conflict_penalty _ { name := "f" } nfFail (fun _ _ => .error .valueError)
      ⟨.str "A", "A", 0.7, .anchor⟩
      [⟨.str "B", "B", 0.6, .anchor⟩, ⟨.str "A", "A", 0.5, .regex⟩, ⟨.str "C", "C", 0.6, .regex⟩]
      (by with_unfolding_all decide) (by decide)).1
      ⟨⟨.str "B", "B", 0.6, .anchor⟩, by simp, by decide, by with_unfolding_all decide⟩).trans
      (by with_unfolding_all decide)
  · exact ((C3_conflict_penalty _ { name := "f" } nfFail (fun _ _ => .error .valueError)
      ⟨.str "A", "A", 0.7, .anchor⟩ [⟨.str "B", "B", 0.4, .anchor⟩]
      (by with_unfolding_all decide) (by decide)).2
      (by intro c hc; simp at hc; right; rw [hc])).trans
      (by with_unfolding_all decide)

/-! ## C8 -/

/-- A validator stub that reports exactly one error string. -/
def vfOne : Val → FieldConfig → Except PyErr (List String) := fun _ _ => .ok ["bad value"]

/-- C8, counterexample.  On `Total: x` with a succeeding normalizer and a
validator returning the single error `"bad value"`, the winner's validation
produced a non-empty error list (which lowers its confidence to
`0.75 + 0.10 - 0.05 = 0.80`), yet the `FieldResult` returned by
`extract_field` carries an empty `validation_errors` list: the winner's
error strings are not attached to the result by this function (the pipeline
orchestrator re-derives and attaches them downstream, outside
`extract_field`). -/
theorem C8_counterexample :
    vfOne (.str "x") c1Cfg = .ok ["bad value"] ∧
    extract_field c1Doc c1Cfg nfId vfOne =
      .ok { field_name := "t", value := some (.str "x"), raw_value := some "x",
            confidence := 0.80, status := .needs_review, method := some .anchor,
            alternatives := [], validation_errors := [] } ∧
    (["bad value"] ≠ ([] : List String)) := by
  refine ⟨rfl, ?_, by decide⟩
  with_unfolding_all rfl

/-- C8 (amended).  `extract_field` consumes validation errors only
through the confidence penalty: the `FieldResult` it returns always has an
empty `validation_errors` list, and validator outcomes (error lists or
crashes) never make it fail — errors are data, not exceptions. -/
theorem C8_no_errors_attached (doc : NormalizedDocument) (cfg : FieldConfig)
    (nf : String → FieldConfig → Except PyErr Val)
    (vf : Val → FieldConfig → Except PyErr (List String)) (r : FieldResult)
    (h : extract_field doc cfg nf vf = .ok r) :
    r.validation_errors = [] := by
  unfold extract_field at h
  cases hrc : regex_extract doc cfg with
  | error e =>
    rw [hrc] at h
    dsimp only at h
    exact Except.noConfusion h
  | ok rc =>
    rw [hrc] at h
    dsimp only at h
    by_cases hemp : anchor_extract doc cfg ++ rc = []
    · rw [if_pos hemp] at h
      cases h
      rfl
    · rw [if_neg hemp] at h
      cases hsc : score_candidates (anchor_extract doc cfg ++ rc) cfg nf vf with
      | nil => rw [hsc] at h; cases h; rfl
      | cons best rest => rw [hsc] at h; dsimp only at h; cases h; rfl

/-- Witness for `C8_no_errors_attached` at the counterexample's input. -/
theorem C8_witness :
    ∃ r, extract_field c1Doc c1Cfg nfId vfOne = .ok r ∧ r.validation_errors = [] := by
  refine ⟨_, (by with_unfolding_all rfl :
    extract_field c1Doc c1Cfg nfId vfOne =
      .ok { field_name := "t", value := some (.str "x"), raw_value := some "x",
            confidence := 0.80, status := .needs_review, method := some .anchor,
            alternatives := [], validation_errors := [] }), ?_⟩
  exact C8_no_errors_attached c1Doc c1Cfg nfId vfOne _ (by with_unfolding_all rfl)

/-! ## C6 -/

/-- The degenerate bounding box used by the fixtures. -/
def bb0 : BBox := ⟨0, 0, 0, 0, 0⟩

/-- Modelled from the spec (for comparison only): the cleaning step as the
claim states it — strip a leading `:` from the FIRST extracted token's text
only, then drop tokens that became empty. -/
def cleanValueTokensClaimed : List (String × BBox) → List (String × BBox)
  | [] => []
  | (t, b) :: rest => ((pyLstripColon t, b) :: rest).filter (fun p => p.1 ≠ "")

/-- Document for C6's counterexample: one line `K: X :Y`. -/
def c6Doc : NormalizedDocument := docOf [tok0 "K:" 0, tok0 "X" 0, tok0 ":Y" 0]

/-- Field config for C6's counterexample: anchor `k`. -/
def c6Cfg : FieldConfig :=
  { name := "f", anchors := ["k"], search_window := "same_line_right" }

/-- C6, counterexample.  The claim says a leading `:` is stripped *only*
from the first extracted value token.  On the line `K: X :Y` with anchor
`k`, the value tokens are `X` and `:Y`; the code strips the second token's
leading colon too, emitting raw value `"X Y"`, whereas the claimed cleaning
keeps `":Y"` (raw value `"X :Y"`). -/
theorem C6_counterexample :
    anchor_extract c6Doc c6Cfg = [⟨.str "X Y", "X Y", 0.75, .anchor⟩] ∧
    cleanValueTokens [("X", bb0), (":Y", bb0)] = [("X", bb0), ("Y", bb0)] ∧
    cleanValueTokensClaimed [("X", bb0), (":Y", bb0)] = [("X", bb0), (":Y", bb0)] ∧
    ("Y" ≠ ":Y") := by
  refine ⟨?_, ?_, ?_, by decide⟩
  · with_unfolding_all rfl
  · with_unfolding_all rfl
  · with_unfolding_all rfl

/-- C6 (amended).  The cleaning step strips whitespace and a leading run
of `:` from *every* value token's text (not only the first), drops tokens
that become empty, and when no non-empty value token remains the anchor
occurrence is skipped with no candidate emitted. -/
theorem C6_cleaning (vts : List (String × BBox)) (tokens : List Token) (pageNo : Int)
    (cfg : FieldConfig) (i : Nat) (tok : Token) (anchor : String) :
    cleanValueTokens vts =
      (vts.map (fun p => (pyStripWs (pyLstripColon (pyStripWs p.1)), p.2))).filter
        (fun p => p.1 ≠ "") ∧
    (cleanValueTokens
        (token_text_near tokens
          (if i + (anchor_match_score tokens i tok anchor).2 = 0 then tokens.length - 1
           else i + (anchor_match_score tokens i tok anchor).2 - 1)
          cfg.search_window pageNo) = [] →
      anchorStep tokens pageNo cfg i tok anchor = []) := by
  constructor
  · induction vts with
    | nil => rfl
    | cons p rest ih =>
      obtain ⟨t, b⟩ := p
      by_cases h : pyStripWs (pyLstripColon (pyStripWs t)) = ""
      · simp [cleanValueTokens, h, ih]
      · simp [cleanValueTokens, h, ih]
  · intro hclean
    unfold anchorStep
    by_cases hms : ANCHOR_FUZZY_THRESHOLD ≤ (anchor_match_score tokens i tok anchor).1
    · rw [if_pos hms]
      dsimp only
      by_cases hvt :
          token_text_near tokens
            (if i + (anchor_match_score tokens i tok anchor).2 = 0 then tokens.length - 1
             else i + (anchor_match_score tokens i tok anchor).2 - 1)
            cfg.search_window pageNo = []
      · rw [if_pos hvt]
      · rw [if_neg hvt, if_pos hclean]
    · rw [if_neg hms]

/-- Witness for `C6_cleaning`: on the line `K: :` the only value token is
`":"`, which cleans to nothing, so the anchor occurrence emits no
candidate. -/
theorem C6_witness :
    anchorStep [tok0 "K:" 0, tok0 ":" 0] 0 c6Cfg 0 (tok0 "K:" 0) "k" = [] :=
  (C6_cleaning [] [tok0 "K:" 0, tok0 ":" 0] 0 c6Cfg 0 (tok0 "K:" 0) "k").2
    (by with_unfolding_all rfl)

/-! ## C7 -/

/-- C7.  Anchor threshold and confidence: every candidate emitted by the
anchor loop body carries method `anchor` and confidence
`0.75 * match_score` with `match_score ≥ 0.80`; a match score below 0.80
emits nothing; and a match score of at least 0.80 (the boundary included)
emits a candidate whenever the cleaned value tokens are non-empty. -/
theorem C7_anchor_threshold (tokens : List Token) (pageNo : Int) (cfg : FieldConfig)
    (i : Nat) (tok : Token) (anchor : String) :
    (∀ c ∈ anchorStep tokens pageNo cfg i tok anchor,
      ANCHOR_FUZZY_THRESHOLD ≤ (anchor_match_score tokens i tok anchor).1 ∧
      c.confidence = 0.75 * (anchor_match_score tokens i tok anchor).1 ∧
      c.method = .anchor) ∧
    ((anchor_match_score tokens i tok anchor).1 < ANCHOR_FUZZY_THRESHOLD →
      anchorStep tokens pageNo cfg i tok anchor = []) ∧
    (ANCHOR_FUZZY_THRESHOLD ≤ (anchor_match_score tokens i tok anchor).1 →
      cleanValueTokens
          (token_text_near tokens
            (if i + (anchor_match_score tokens i tok anchor).2 = 0 then tokens.length - 1
             else i + (anchor_match_score tokens i tok anchor).2 - 1)
            cfg.search_window pageNo) ≠ [] →
      anchorStep tokens pageNo cfg i tok anchor ≠ []) := by
  refine ⟨?_, ?_, ?_⟩
  · intro c hc
    unfold anchorStep at hc
    by_cases hms : ANCHOR_FUZZY_THRESHOLD ≤ (anchor_match_score tokens i tok anchor).1
    · rw [if_pos hms] at hc
      dsimp only at hc
      by_cases hvt :
          token_text_near tokens
            (if i + (anchor_match_score tokens i tok anchor).2 = 0 then tokens.length - 1
             else i + (anchor_match_score tokens i tok anchor).2 - 1)
            cfg.search_window pageNo = []
      · rw [if_pos hvt] at hc
        exact absurd hc (List.not_mem_nil c)
      · rw [if_neg hvt] at hc
        by_cases hcl :
            cleanValueTokens
              (token_text_near tokens
                (if i + (anchor_match_score tokens i tok anchor).2 = 0 then tokens.length - 1
                 else i + (anchor_match_score tokens i tok anchor).2 - 1)
                cfg.search_window pageNo) = []
        · rw [if_pos hcl] at hc
          exact absurd hc (List.not_mem_nil c)
        · rw [if_neg hcl] at hc
          rcases List.mem_singleton.mp hc with rfl
          exact ⟨hms, rfl, rfl⟩
    · rw [if_neg hms] at hc
      exact absurd hc (List.not_mem_nil c)
  · intro hlt
    unfold anchorStep
    rw [if_neg (not_le.mpr hlt)]
  · intro hms hcl
    unfold anchorStep
    rw [if_pos hms]
    dsimp only
    have hvt :
        token_text_near tokens
          (if i + (anchor_match_score tokens i tok anchor).2 = 0 then tokens.length - 1
           else i + (anchor_match_score tokens i tok anchor).2 - 1)
          cfg.search_window pageNo ≠ [] := by
      intro h
      exact hcl (by rw [h]; rfl)
    rw [if_neg hvt, if_neg hcl]
    exact List.cons_ne_nil _ _

/-- Witness for `C7_anchor_threshold` at the 0.80 boundary: token `abcde`
against anchor `abcdx` has similarity exactly `2*4/10 = 0.8` and emits a
candidate (of confidence `0.75 * 0.8 = 0.6`), while token `abcd` against
anchor `abcx` has similarity `0.75 < 0.80` and emits none. -/
theorem C7_witness :
    ((anchor_match_score [tok0 "abcde" 0, tok0 "v" 0] 0 (tok0 "abcde" 0) "abcdx").1 = 0.8) ∧
    (anchorStep [tok0 "abcde" 0, tok0 "v" 0] 0 c6Cfg 0 (tok0 "abcde" 0) "abcdx" ≠ []) ∧
    ((anchor_match_score [tok0 "abcd" 0, tok0 "v" 0] 0 (tok0 "abcd" 0) "abcx").1 = 0.75) ∧
    (anchorStep [tok0 "abcd" 0, tok0 "v" 0] 0 c6Cfg 0 (tok0 "abcd" 0) "abcx" = []) := by
  refine ⟨by with_unfolding_all decide, ?_, by with_unfolding_all decide, ?_⟩
  · exact (C7_anchor_threshold [tok0 "abcde" 0, tok0 "v" 0] 0 c6Cfg 0
      (tok0 "abcde" 0) "abcdx").2.2 (by with_unfolding_all decide)
      (by with_unfolding_all decide)
  · exact (C7_anchor_threshold [tok0 "abcd" 0, tok0 "v" 0] 0 c6Cfg 0
      (tok0 "abcd" 0) "abcx").2.1 (by with_unfolding_all decide)

/-! ## C9 — `_parse_money` (`app/validators/normalizers.py` lines 57-74)

`Decimal`-accepted special values (`Infinity`, `NaN`) fall outside the
numeric model and are not represented: the model covers decimal numeric
literals (sign, digits, fraction, exponent, with underscores removed as the
`Decimal` constructor does), which is every money string the claim ranges
over. -/

/-- The character class of `re.sub(r'[€£¥₹$\s]', '', raw)`. -/
def isMoneySymbolOrSpace (c : Char) : Bool :=
  c = '€' ∨ c = '£' ∨ c = '¥' ∨ c = '₹' ∨ c = '$' ∨ pyIsSpace c

/-- Digits-to-number accumulator. -/
def digitsToNat (ds : List Char) : Nat :=
  ds.foldl (fun a c => a * 10 + (c.toNat - 48)) 0

/-- The tail of the European-format regex `^\d{1,3}(\.\d{3})*(,\d{2})?$`
after the initial digit block: zero or more `.ddd` groups, then an optional
terminal `,dd`. -/
def euroTail : List Char → Bool
  | [] => true
  | '.' :: d1 :: d2 :: d3 :: rest => d1.isDigit && d2.isDigit && d3.isDigit && euroTail rest
  | [',', d1, d2] => d1.isDigit && d2.isDigit
  | _ => false

/-- Model of `re.match(r'^\d{1,3}(\.\d{3})*(,\d{2})?$', cleaned)`: the initial
`\d{1,3}` must take exactly the leading digit run (a shorter greedy split
leaves a digit that no later regex element can match), so the match is
deterministic: 1-3 leading digits followed by `euroTail`. -/
def isEuroFormat (cs : List Char) : Bool :=
  let n := (cs.takeWhile Char.isDigit).length
  decide (1 ≤ n) && decide (n ≤ 3) && euroTail (cs.drop n)

/-- The exponent suffix of a `Decimal` literal: empty, or `e`/`E` with an
optional sign and a non-empty digit run. -/
def parseExp : List Char → Option Int
  | [] => some 0
  | c :: rest =>
    if c = 'e' ∨ c = 'E' then
      match rest with
      | '+' :: ds => if ds ≠ [] ∧ ds.all Char.isDigit then some (digitsToNat ds) else none
      | '-' :: ds => if ds ≠ [] ∧ ds.all Char.isDigit then some (-(digitsToNat ds : Int)) else none
      | ds => if ds ≠ [] ∧ ds.all Char.isDigit then some (digitsToNat ds) else none
    else none

/-- Model of `float(Decimal(s))` on finite decimal literals: the `Decimal`
constructor strips whitespace and underscores, then accepts
`[+|-] digits [. digits] [exponent]` with at least one mantissa digit;
anything else raises `InvalidOperation` (modelled as `none`). -/
def decimalOfChars (input : List Char) : Option ℚ :=
  let ws := (input.dropWhile pyIsSpace).reverse.dropWhile pyIsSpace
  let cs := ws.reverse.filter (fun c => c ≠ '_')
  let sign : ℚ × List Char :=
    match cs with
    | '+' :: rest => (1, rest)
    | '-' :: rest => (-1, rest)
    | _ => (1, cs)
  let ip := sign.2.takeWhile Char.isDigit
  let rest := sign.2.drop ip.length
  let fprest : List Char × List Char :=
    match rest with
    | '.' :: r => (r.takeWhile Char.isDigit, r.drop (r.takeWhile Char.isDigit).length)
    | _ => ([], rest)
  if ip.length + fprest.1.length = 0 then none
  else
    match parseExp fprest.2 with
    | none => none
    | some e =>
      some (sign.1 * ((digitsToNat (ip ++ fprest.1) : ℚ) / (10 : ℚ) ^ fprest.1.length) *
        (10 : ℚ) ^ e)

/-- Model of `_parse_money(raw)` (normalizers.py lines 57-74): strip, remove currency
symbols and whitespace, convert the European `1.234,56` format (dots
removed, comma becomes the decimal point) or else drop thousands commas,
then parse as a decimal number; failure raises `NormalizationError`. -/
def _parse_money (raw : String) : Except PyErr ℚ :=
  let raw := pyStripWs raw
  let cleaned := raw.toList.filter (fun c => ¬ isMoneySymbolOrSpace c)
  let cleaned :=
    if isEuroFormat cleaned then
      (cleaned.filter (fun c => c ≠ '.')).map (fun c => if c = ',' then '.' else c)
    else cleaned.filter (fun c => c ≠ ',')
  match decimalOfChars cleaned with
  | some q => .ok q
  | none => .error (.normalizationError ("Cannot parse money: " ++ raw))

/-- C9.  `parse_money("$4,895.00") = 4895.00`,
`parse_money("1.234,56") = 1234.56` (European format), a malformed input
such as `"abc"` fails with `NormalizationError`, and every failure of
`_parse_money` is a `NormalizationError` (never a value, never another
exception). -/
theorem C9_parse_money_round_trip :
    _parse_money "$4,895.00" = .ok 4895 ∧
    _parse_money "1.234,56" = .ok 1234.56 ∧
    _parse_money "abc" = .error (.normalizationError "Cannot parse money: abc") ∧
    (∀ s, (∀ q, _parse_money s ≠ .ok q) →
      ∃ msg, _parse_money s = .error (.normalizationError msg)) := by
  refine ⟨by with_unfolding_all rfl, by with_unfolding_all rfl, by with_unfolding_all rfl, ?_⟩
  intro s hq
  cases hp : _parse_money s with
  | ok q => exact absurd hp (hq q)
  | error e =>
    have hp2 := hp
    unfold _parse_money at hp2
    dsimp only at hp2
    split at hp2
    · exact Except.noConfusion hp2
    · injection hp2 with he
      refine ⟨"Cannot parse money: " ++ pyStripWs s, ?_⟩
      rw [← he]

/-- Witness for `C9_parse_money_round_trip`'s universal clause at the
malformed input `"abc"`. -/
theorem C9_witness :
    ∃ msg, _parse_money "abc" = .error (.normalizationError msg) :=
  C9_parse_money_round_trip.2.2.2 "abc" (fun q h => by
    rw [show _parse_money "abc" = .error (.normalizationError "Cannot parse money: abc")
      from by with_unfolding_all rfl] at h
    exact Except.noConfusion h)

/-! ## C5 -/

/-- The `next_3_lines` cut-off recursion on an already-qualifying token list
(the claim's words: collect in document order, stopping once 3 distinct line
ids have been seen — including the token that revealed the third line). -/
def upTo3Lines : List Token → List Int → List (String × BBox)
  | [], _ => []
  | t :: ts, seen =>
    let seen' := if t.line_id ∈ seen then seen else seen ++ [t.line_id]
    (t.text, t.bbox) :: (if 3 ≤ seen'.length then [] else upTo3Lines ts seen')

/-- Lemma: `sameLineScan`, on a suffix whose line ids never precede the anchor's
line, collects exactly the page-matching tokens of the leading
anchor-line run: all subsequent tokens sharing the anchor's line id,
stopping at the first token whose line id differs. -/
theorem sameLineScan_characterization (aLine : Int) (p : Int) (l : List Token)
    (hall : ∀ t ∈ l, aLine ≤ t.line_id) :
    sameLineScan aLine p l =
      ((l.takeWhile (fun t => decide (t.line_id = aLine))).filter
        (fun t => decide (t.bbox.page = p))).map (fun t => (t.text, t.bbox)) := by
  induction l with
  | nil => rfl
  | cons t ts ih =>
    have hd := hall t (List.mem_cons_self t ts)
    have htail : ∀ x ∈ ts, aLine ≤ x.line_id :=
      fun x hx => hall x (List.mem_cons_of_mem _ hx)
    by_cases h1 : t.line_id = aLine
    · by_cases h2 : t.bbox.page = p
      · simp [sameLineScan, h1, h2, ih htail, List.takeWhile_cons, List.filter_cons]
      · simp [sameLineScan, h1, h2, ih htail, List.takeWhile_cons, List.filter_cons]
    · have hlt : aLine < t.line_id := lt_of_le_of_ne hd (fun h => h1 h.symm)
      have : ¬(t.line_id = aLine ∧ t.bbox.page = p) := fun h => h1 h.1
      simp [sameLineScan, this, hlt, h1, List.takeWhile_cons]

/-- The `next_3_lines` scan is the cut-off recursion applied to the
qualifying tokens (right page, line after the anchor's): skipped tokens
change neither the collection nor the set of seen lines. -/
theorem next3Scan_eq_upTo3Lines (aLine : Int) (p : Int) (l : List Token) (seen : List Int) :
    next3Scan aLine p l seen =
      upTo3Lines (l.filter (fun t => decide (t.bbox.page = p) && decide (aLine < t.line_id)))
        seen := by
  induction l generalizing seen with
  | nil => rfl
  | cons t ts ih =>
    by_cases hq : t.bbox.page = p ∧ aLine < t.line_id
    · have hf : (decide (t.bbox.page = p) && decide (aLine < t.line_id)) = true := by
        simp [hq.1, hq.2]
      simp only [next3Scan, if_pos hq, List.filter_cons, hf, if_true, upTo3Lines]
      by_cases h3 : 3 ≤ (if t.line_id ∈ seen then seen else seen ++ [t.line_id]).length
      · simp [h3]
      · simp [h3, ih]
    · have hf : (decide (t.bbox.page = p) && decide (aLine < t.line_id)) = false := by
        rcases not_and_or.mp hq with h | h <;> simp [h]
      simp only [next3Scan, if_neg hq, List.filter_cons, hf]
      exact ih seen

/-- When the qualifying tokens span at most two distinct line ids (counted
together with the lines already seen), the cut-off never triggers and every
qualifying token is collected. -/
theorem upTo3Lines_all (l : List Token) : ∀ seen : List Int, seen.Nodup →
    (seen.toFinset ∪ (l.map (fun t => t.line_id)).toFinset).card ≤ 2 →
    upTo3Lines l seen = l.map (fun t => (t.text, t.bbox)) := by
  induction l with
  | nil => intro seen _ _; rfl
  | cons t ts ih =>
    intro seen hnd hcard
    unfold upTo3Lines
    dsimp only
    have hnd' : (if t.line_id ∈ seen then seen else seen ++ [t.line_id]).Nodup := by
      by_cases hm : t.line_id ∈ seen
      · simpa [hm] using hnd
      · simp [hm, List.nodup_append, hnd]
    have hsub : (if t.line_id ∈ seen then seen else seen ++ [t.line_id]).toFinset ⊆
        seen.toFinset ∪ (List.map (fun t => t.line_id) (t :: ts)).toFinset := by
      intro x hx
      by_cases hm : t.line_id ∈ seen
      · rw [if_pos hm] at hx
        exact Finset.mem_union_left _ hx
      · rw [if_neg hm, List.toFinset_append] at hx
        rcases Finset.mem_union.mp hx with hx | hx
        · exact Finset.mem_union_left _ hx
        · refine Finset.mem_union_right _ ?_
          simp only [List.mem_toFinset] at hx ⊢
          simp only [List.mem_singleton] at hx
          simp [hx]
    have hlen : (if t.line_id ∈ seen then seen else seen ++ [t.line_id]).length ≤ 2 := by
      rw [← List.toFinset_card_of_nodup hnd']
      exact le_trans (Finset.card_le_card hsub) hcard
    have h3 : ¬ 3 ≤ (if t.line_id ∈ seen then seen else seen ++ [t.line_id]).length := by
      omega
    rw [if_neg h3]
    refine congrArg _ (ih _ hnd' ?_)
    refine le_trans (Finset.card_le_card (Finset.union_subset hsub ?_)) hcard
    refine le_trans ?_ (Finset.subset_union_right)
    intro x hx
    simp only [List.mem_toFinset, List.map_cons, List.mem_cons] at hx ⊢
    exact Or.inr hx

/-- The cut-off recursion always returns a prefix of the qualifying tokens:
collection is in document order with no skips. -/
theorem upTo3Lines_prefix (l : List Token) : ∀ seen : List Int,
    ∃ n, upTo3Lines l seen = (l.take n).map (fun t => (t.text, t.bbox)) := by
  induction l with
  | nil => exact fun _ => ⟨0, rfl⟩
  | cons t ts ih =>
    intro seen
    unfold upTo3Lines
    by_cases h3 : 3 ≤ (if t.line_id ∈ seen then seen else seen ++ [t.line_id]).length
    · exact ⟨1, by simp [h3]⟩
    · obtain ⟨n, hn⟩ := ih (if t.line_id ∈ seen then seen else seen ++ [t.line_id])
      exact ⟨n + 1, by simp [h3, hn]⟩

/-- Every token after the anchor position has a line id at least the
anchor's (anchor token looked up as in `_token_text_near`). -/
theorem anchor_line_le_of_pairwise {tokens : List Token} {i : Nat}
    (h : tokens.Pairwise (fun a b => a.line_id ≤ b.line_id)) (hi : i < tokens.length) :
    ∀ t ∈ tokens.drop (i + 1),
      (tokens.getD i ⟨"", ⟨0, 0, 0, 0, 0⟩, 0⟩).line_id ≤ t.line_id := by
  intro t ht
  obtain ⟨j, hj, rfl⟩ := List.mem_iff_getElem.mp ht
  rw [List.getElem_drop]
  rw [List.getD_eq_getElem _ _ hi]
  have hlt : i + 1 + j < tokens.length := by
    have := hj
    rw [List.length_drop] at this
    omega
  exact List.pairwise_iff_getElem.mp h i (i + 1 + j) hi hlt (by omega)

/-- C5.  For documents whose tokens carry nondecreasing line ids (the
order normalization produces), the three search windows collect value
tokens exactly as claimed: `same_line_right` takes the subsequent tokens
sharing the anchor's line id and page, stopping at the first token whose
line id differs; `same_line_or_next` is the same, and when that set is
empty falls through to every token on the next encountered line id on the
same page (or nothing when no further line exists); `next_3_lines` collects
the page-matching tokens on lines after the anchor's, in document order
and without skips (a prefix of them), stopping once 3 distinct line ids
have been seen — so when at most 2 distinct such lines exist it collects
them all. -/
theorem C5_search_windows (tokens : List Token) (anchorIdx : Nat) (pageNo : Int)
    (hmono : tokens.Pairwise (fun a b => a.line_id ≤ b.line_id))
    (hidx : anchorIdx < tokens.length) :
    (token_text_near tokens anchorIdx "same_line_right" pageNo =
      (((tokens.drop (anchorIdx + 1)).takeWhile
          (fun t => decide (t.line_id = (tokens.getD anchorIdx ⟨"", ⟨0, 0, 0, 0, 0⟩, 0⟩).line_id))).filter
        (fun t => decide (t.bbox.page = pageNo))).map (fun t => (t.text, t.bbox))) ∧
    ((token_text_near tokens anchorIdx "same_line_right" pageNo ≠ [] →
      token_text_near tokens anchorIdx "same_line_or_next" pageNo =
        token_text_near tokens anchorIdx "same_line_right" pageNo) ∧
     (token_text_near tokens anchorIdx "same_line_right" pageNo = [] →
      (∀ t0, (tokens.drop (anchorIdx + 1)).find?
          (fun t => decide (t.line_id ≠ (tokens.getD anchorIdx ⟨"", ⟨0, 0, 0, 0, 0⟩, 0⟩).line_id)) =
            some t0 →
        token_text_near tokens anchorIdx "same_line_or_next" pageNo =
          (tokens.filter
            (fun t => decide (t.line_id = t0.line_id) && decide (t.bbox.page = pageNo))).map
            (fun t => (t.text, t.bbox))) ∧
      ((tokens.drop (anchorIdx + 1)).find?
          (fun t => decide (t.line_id ≠ (tokens.getD anchorIdx ⟨"", ⟨0, 0, 0, 0, 0⟩, 0⟩).line_id)) =
            none →
        token_text_near tokens anchorIdx "same_line_or_next" pageNo = []))) ∧
    (token_text_near tokens anchorIdx "next_3_lines" pageNo =
      upTo3Lines ((tokens.drop (anchorIdx + 1)).filter
        (fun t => decide (t.bbox.page = pageNo) &&
          decide ((tokens.getD anchorIdx ⟨"", ⟨0, 0, 0, 0, 0⟩, 0⟩).line_id < t.line_id))) [] ∧
     ((((tokens.drop (anchorIdx + 1)).filter
          (fun t => decide (t.bbox.page = pageNo) &&
            decide ((tokens.getD anchorIdx ⟨"", ⟨0, 0, 0, 0, 0⟩, 0⟩).line_id < t.line_id))).map
          (fun t => t.line_id)).dedup.length ≤ 2 →
      token_text_near tokens anchorIdx "next_3_lines" pageNo =
        ((tokens.drop (anchorIdx + 1)).filter
          (fun t => decide (t.bbox.page = pageNo) &&
            decide ((tokens.getD anchorIdx ⟨"", ⟨0, 0, 0, 0, 0⟩, 0⟩).line_id < t.line_id))).map
          (fun t => (t.text, t.bbox))) ∧
     (∃ n, token_text_near tokens anchorIdx "next_3_lines" pageNo =
        (((tokens.drop (anchorIdx + 1)).filter
          (fun t => decide (t.bbox.page = pageNo) &&
            decide ((tokens.getD anchorIdx ⟨"", ⟨0, 0, 0, 0, 0⟩, 0⟩).line_id < t.line_id))).take n).map
          (fun t => (t.text, t.bbox)))) := by
  have hall := anchor_line_le_of_pairwise hmono hidx
  set aLine := (tokens.getD anchorIdx ⟨"", ⟨0, 0, 0, 0, 0⟩, 0⟩).line_id with haLine
  set suffix := tokens.drop (anchorIdx + 1) with hsuffix
  have hslr : token_text_near tokens anchorIdx "same_line_right" pageNo =
      sameLineScan aLine pageNo suffix := by
    unfold token_text_near
    dsimp only
    rw [if_pos (Or.inr rfl)]
    rw [if_neg (fun h => by exact absurd h.2 (by decide))]
  have hn3 : token_text_near tokens anchorIdx "next_3_lines" pageNo =
      next3Scan aLine pageNo suffix [] := by
    unfold token_text_near
    dsimp only
    rw [if_neg (fun h => by rcases h with h | h <;> exact absurd h (by decide))]
    rw [if_pos rfl]
  refine ⟨?_, ⟨?_, ?_⟩, ?_, ?_, ?_⟩
  · rw [hslr]
    exact sameLineScan_characterization aLine pageNo suffix hall
  · intro hne
    rw [hslr] at hne ⊢
    unfold token_text_near
    dsimp only
    rw [if_pos (Or.inl rfl)]
    rw [if_neg (fun h => hne h.1)]
  · intro hemp
    rw [hslr] at hemp
    constructor
    · intro t0 hfind
      unfold token_text_near
      dsimp only
      rw [if_pos (Or.inl rfl)]
      rw [if_pos ⟨hemp, rfl⟩, ← hsuffix, hfind]
      dsimp only
      simp only [Bool.decide_and]
    · intro hfind
      unfold token_text_near
      dsimp only
      rw [if_pos (Or.inl rfl)]
      rw [if_pos ⟨hemp, rfl⟩, ← hsuffix, hfind]
  · rw [hn3]
    exact next3Scan_eq_upTo3Lines aLine pageNo suffix []
  · intro hdedup
    rw [hn3, next3Scan_eq_upTo3Lines]
    refine upTo3Lines_all _ [] List.nodup_nil ?_
    rw [List.toFinset_nil, Finset.empty_union, List.card_toFinset]
    exact hdedup
  · rw [hn3, next3Scan_eq_upTo3Lines]
    exact upTo3Lines_prefix _ []

/-- Tokens for the C5 witness: line ids `0,0,1,1,2,3`, all on page 0. -/
def c5Toks : List Token :=
  [tok0 "A" 0, tok0 "b" 0, tok0 "c" 1, tok0 "d" 1, tok0 "e" 2, tok0 "f" 3]

/-- Witness for `C5_search_windows` on `c5Toks` with the anchor at index 0:
`same_line_right` collects the rest of line 0; `same_line_or_next` gives the
same non-empty set; `next_3_lines` collects lines 1, 1, 2 and stops right
after the first token of the third distinct line (line 3). -/
theorem C5_witness :
    (token_text_near c5Toks 0 "same_line_right" 0 = [("b", bb0)]) ∧
    (token_text_near c5Toks 0 "same_line_or_next" 0 = [("b", bb0)]) ∧
    (token_text_near c5Toks 0 "next_3_lines" 0 =
      [("c", bb0), ("d", bb0), ("e", bb0), ("f", bb0)]) := by
  have h := C5_search_windows c5Toks 0 0 (by decide) (by decide)
  refine ⟨?_, ?_, ?_⟩
  · exact h.1.trans (by with_unfolding_all decide)
  · exact (h.2.1.1 (by with_unfolding_all decide)).trans
      (h.1.trans (by with_unfolding_all decide))
  · exact h.2.2.1.trans (by with_unfolding_all decide)
